import Mathlib

/-!
Shallow embedding of the core of the `termgame` repository
(`termgame.py`, `gameobject.py`) and proofs about its per-tick
simulation pipeline: the layered spatial occupancy index
(`TermGame.CollisionMap`), the movement / rigidbody-conflict resolver
(`TermGame.__move_objects`), the frame-pacing check
(`TermGame.__ready_for_next_frame` / `TermGame.__draw_frame`) and the
grid pathfinding search (`TermGame.pathfind`).

Conventions of the embedding:
* Python dicts are insertion-ordered association lists; `defaultdict`
  materialisation (an absent key read creating an empty entry) is kept.
* Game objects are referenced in the index by their integer `id`; field
  reads (`game_obj.position`, `game_obj.collision.rigidbody`, ...) go
  through a registry lookup.  During `__move_objects` the source never
  writes these fields until the final reconciliation pass, so reading
  them from a fixed registry is faithful.
* Loops whose bound is not structural take an explicit fuel argument;
  fuel exhaustion is an embedding artifact (reported as `none` /
  `.error .fuel`) and is proved unreachable where a theorem needs it.
-/

namespace Termgame

/-- Screen positions are `(y, x)` pairs of integers. -/
abbrev Pos := Int × Int

/-- A `game_obj.position` value: either a position tuple or Python `None`.
Bucket keys of the collision map are exactly these values. -/
abbrev Key := Option Pos

/-- The `Collision` dataclass of `gameobject.py` (the per-object collision
profile): `collider`, `rigidbody`, `layer`, `mass`, `fixed`. -/
structure CollisionProfile where
  collider : Bool := false
  rigidbody : Bool := false
  layer : Int := 0
  mass : Int := 1
  fixed : Bool := false
deriving DecidableEq, Repr

/-- The fields of `gameobject.GameObject` that the core pipeline reads or
writes: the id, the `position` field and the collision profile. -/
structure GameObject where
  id : Nat
  position : Key := none
  collision : CollisionProfile := {}
deriving DecidableEq, Repr

/-- One bucket level of `CollisionMap.map`: the inner
`defaultdict(position -> list)` of one layer, in insertion order. -/
abbrev LayerBuckets := List (Key × List Nat)

/-- `TermGame.CollisionMap.map`: `defaultdict(layer -> defaultdict(position
-> list of objects))`, as insertion-ordered association lists of ids. -/
abbrev CMap := List (Int × LayerBuckets)

/-- The `Collision` namedtuple `(layer, position, colliders)` of
`termgame.py`, with colliders as the list of object ids. -/
structure Collision where
  layer : Int
  position : Key
  colliders : List Nat
deriving DecidableEq, Repr

/-- Removal of the first occurrence of an element, as Python's
`list.remove` does (and as the guarded `remove` in
`CollisionMap.remove_obj` does: no-op when absent). -/
def eraseFirst [DecidableEq α] : List α → α → List α
  | [], _ => []
  | a :: rest, x => if a = x then rest else a :: eraseFirst rest x

/-- Registry lookup: `active_objects` access by id (first match). -/
def findObj (objs : List GameObject) (i : Nat) : Option GameObject :=
  objs.find? (fun o => o.id = i)

/-- The live `game_obj.position` read for an id.  In the source the index
holds the object itself; ids outside the registry do not occur in the
states the theorems quantify over. -/
def posOf (objs : List GameObject) (i : Nat) : Key :=
  match findObj objs i with
  | some o => o.position
  | none => none

/-- The live `game_obj.collision.rigidbody` read for an id. -/
def rigidOf (objs : List GameObject) (i : Nat) : Bool :=
  match findObj objs i with
  | some o => o.collision.rigidbody
  | none => false

/-- Append into the inner position dict of one layer
(`self.map[layer][position].append(game_obj)`): the first bucket with this
key gets the id appended; an absent key is created at the end. -/
def bucketAdd (k : Key) (i : Nat) : LayerBuckets → LayerBuckets
  | [] => [(k, [i])]
  | (k', b) :: rest =>
    if k' = k then (k', b ++ [i]) :: rest else (k', b) :: bucketAdd k i rest

/-- `CollisionMap.add_obj(layer, position, game_obj)`. -/
def addObj (l : Int) (k : Key) (i : Nat) : CMap → CMap
  | [] => [(l, [(k, [i])])]
  | (l', bs) :: rest =>
    if l' = l then (l', bucketAdd k i bs) :: rest else (l', bs) :: addObj l k i rest

/-- Inner part of `CollisionMap.remove_obj`: reading
`self.map[layer][position]` materialises an empty bucket when absent
(defaultdict), then the guarded `remove` erases the first occurrence. -/
def bucketRemove (k : Key) (i : Nat) : LayerBuckets → LayerBuckets
  | [] => [(k, [])]
  | (k', b) :: rest =>
    if k' = k then (k', eraseFirst b i) :: rest else (k', b) :: bucketRemove k i rest

/-- `CollisionMap.remove_obj(layer, position, game_obj)`. -/
def removeObj (l : Int) (k : Key) (i : Nat) : CMap → CMap
  | [] => [(l, bucketRemove k i [])]
  | (l', bs) :: rest =>
    if l' = l then (l', bucketRemove k i bs) :: rest else (l', bs) :: removeObj l k i rest

/-- `CollisionMap.__iter__`: every `(layer, position, bucket)` triple in
insertion order (empty buckets included). -/
def iterate (m : CMap) : List (Int × Key × List Nat) :=
  m.flatMap (fun lb => lb.2.map (fun kb => (lb.1, kb.1, kb.2)))

/-- `CollisionMap.__detect_collisions`: the buckets holding more than one
object, in iteration order. -/
def detectCollisions (m : CMap) : List Collision :=
  ((iterate m).filter (fun t => t.2.2.length > 1)).map
    (fun t => ⟨t.1, t.2.1, t.2.2⟩)

/-- Scan of `CollisionMap.get_rb_collisions` over the detected collisions.
The accumulator mirrors the `rigidbody_collisions` list the source builds;
note that the source function has no `return` statement on the
non-`single` paths, so after the scan Python returns `None` and the
accumulated list is discarded. -/
def getRbScan (objs : List GameObject) (layer : Option Int) (pos : Option Pos)
    (single : Bool) : List Collision → List Collision → Option Collision
  | [], _acc => none
  | c :: rest, acc =>
    -- `if specific_layer and collision.layer != specific_layer: continue`
    -- (a layer argument of 0 is falsy in Python, so it does not filter)
    let skipLayer : Bool :=
      match layer with | some v => decide (v ≠ 0) && decide (c.layer ≠ v) | none => false
    -- `if specific_position and collision.position != specific_position`
    let skipPos : Bool :=
      match pos with | some p => decide (c.position ≠ some p) | none => false
    if skipLayer then getRbScan objs layer pos single rest acc
    else if skipPos then getRbScan objs layer pos single rest acc
    else
      let rb := c.colliders.filter (fun i => rigidOf objs i)
      if rb.length > 1 then
        if single then some ⟨c.layer, c.position, rb⟩
        else getRbScan objs layer pos single rest (acc ++ [⟨c.layer, c.position, rb⟩])
      else getRbScan objs layer pos single rest acc

/-- `CollisionMap.get_rb_collisions(layer, position, single)`. -/
def getRbCollisions (objs : List GameObject) (m : CMap) (layer : Option Int)
    (pos : Option Pos) (single : Bool) : Option Collision :=
  getRbScan objs layer pos single (detectCollisions m) []

/-- The resolver's fetch: `get_rb_collisions(single=True)`. -/
def getRbSingle (objs : List GameObject) (m : CMap) : Option Collision :=
  getRbCollisions objs m none none true

/-- Accumulated per-object collision reports: the
`rigidbody_collisions` `defaultdict(list)` keyed by `collider.id`,
in key-insertion order. -/
abbrev Reports := List (Nat × List Nat)

/-- `rigidbody_collisions[collider.id].extend(other_colliders)`. -/
def extendReport : Reports → Nat → List Nat → Reports
  | [], i, vs => [(i, vs)]
  | (i', l) :: rest, i, vs =>
    if i' = i then (i', l ++ vs) :: rest else (i', l) :: extendReport rest i vs

/-- First loop of the resolver body: for each collider of the conflict,
record every other collider of the conflict as a peer
(`other_colliders = colliders.copy(); other_colliders.remove(collider)`). -/
def recordPeers (c : Collision) (r : Reports) : Reports :=
  c.colliders.foldl (fun r x => extendReport r x (eraseFirst c.colliders x)) r

/-- Second loop of the resolver body: scan the conflict's colliders in
order; the first one whose `position` field differs from the conflict
position is moved back (removed from the conflict bucket, re-added at its
recorded position) and the scan stops (`resolved = True; break`). -/
def tryRevert (objs : List GameObject) (c : Collision) (m : CMap) : CMap × Bool :=
  go c.colliders
where
  go : List Nat → CMap × Bool
  | [] => (m, false)
  | x :: rest =>
    if posOf objs x ≠ c.position then
      (addObj c.layer (posOf objs x) x (removeObj c.layer c.position x m), true)
    else go rest

/-- The fetch at the bottom of the resolver loop:
`collision = get_rb_collisions(single=True);
if collision and collision in unresolvable: collision = None`. -/
def nextConflict (objs : List GameObject) (m : CMap) (unres : List Collision) :
    Option Collision :=
  match getRbSingle objs m with
  | some c => if c ∈ unres then none else some c
  | none => none

/-- The `while collision:` loop of `__move_objects`, fuel-instrumented.
A result of `none` means the fuel ran out, which `resolveLoop_total`
below shows cannot happen for well-formed maps at the fuel
`__move_objects` supplies. -/
def resolveLoop (objs : List GameObject) :
    Nat → Option Collision → CMap → List Collision → Reports →
    Option (CMap × Reports)
  | 0, _, _, _, _ => none
  | _ + 1, none, m, _, reports => some (m, reports)
  | fuel + 1, some c, m, unres, reports =>
    let reports1 := recordPeers c reports
    let mr := tryRevert objs c m
    let unres1 := if mr.2 then unres else unres ++ [c]
    resolveLoop objs fuel (nextConflict objs mr.1 unres1) mr.1 unres1 reports1

/-- One drained relocation request (`game_obj, position = move_requests.pop()`
followed by the `remove_obj` / `add_obj` pair). -/
def applyRequest (objs : List GameObject) (r : Nat × Key) (m : CMap) : CMap :=
  match findObj objs r.1 with
  | some o => addObj o.collision.layer r.2 r.1 (removeObj o.collision.layer o.position r.1 m)
  | none => m  -- in the source the request holds the object itself; see `posOf`

/-- Structural helper for the drain loop, consuming an already-reversed
request list front to back. -/
def drainRev (objs : List GameObject) : List (Nat × Key) → CMap → CMap
  | [], m => m
  | r :: rest, m => drainRev objs rest (applyRequest objs r m)

/-- The `while self.move_requests:` drain loop: `pop()` takes requests
from the end of the list, so the queue is consumed last-in first-out. -/
def drainAll (objs : List GameObject) (reqs : List (Nat × Key)) (m : CMap) : CMap :=
  drainRev objs reqs.reverse m

/-- Per-occurrence assignments of the reconciliation pass
(`for layer, position, game_obj_list in self.collision_map: for game_obj
in game_obj_list: game_obj.position = position`), in iteration order. -/
def assignments (m : CMap) : List (Nat × Key) :=
  (iterate m).flatMap (fun t => t.2.2.map (fun i => (i, t.2.1)))

/-- One reconciliation write: set the position field of the object with
this id. -/
def applyAssign (objs : List GameObject) (p : Nat × Key) : List GameObject :=
  objs.map (fun o => if o.id = p.1 then { o with position := p.2 } else o)

/-- The reconciliation pass of `__move_objects`. -/
def reconcile (m : CMap) (objs : List GameObject) : List GameObject :=
  (assignments m).foldl applyAssign objs

/-- Number of bucket occurrences whose bucket key differs from the
occupant's recorded `position` field.  This is the termination measure of
the resolver loop: every successful revert decreases it. -/
def mismatch (objs : List GameObject) (m : CMap) : Nat :=
  ((iterate m).map (fun t => t.2.2.countP (fun i => decide (posOf objs i ≠ t.2.1)))).sum

/-- Result of `__move_objects`: the updated registry, the updated
collision map, and the list of issued `on_rigidbody_collision`
notifications `(entity id, peer ids)`. -/
structure MoveResult where
  objs : List GameObject
  cmap : CMap
  notifs : List (Nat × List Nat)
deriving DecidableEq, Repr

/-- The fuel-instrumented resolver call of `__move_objects`. -/
def resolveOut (objs : List GameObject) (m1 : CMap) : Option (CMap × Reports) :=
  resolveLoop objs (mismatch objs m1 + 2) (getRbSingle objs m1) m1 [] []

/-- `TermGame.__move_objects`: early return on an empty request queue;
otherwise drain the queue, run the rigidbody-conflict resolver loop,
reconcile every object's position field with its bucket, and notify
every reported object that is still registered
(`self.active_objects.get(game_obj_id)`). -/
def moveObjects (objs : List GameObject) (m : CMap) (reqs : List (Nat × Key)) :
    MoveResult :=
  if reqs = [] then ⟨objs, m, []⟩
  else
    let m1 := drainAll objs reqs m
    match resolveOut objs m1 with
    | none => ⟨objs, m1, []⟩  -- fuel exhaustion: unreachable, see resolveLoop_total
    | some (m2, reports) =>
      let objs2 := reconcile m2 objs
      ⟨objs2, m2, reports.filter (fun p => (findObj objs2 p.1).isSome)⟩

/-- The bucket of the first matching position key inside one layer,
defaulting to empty: the inner dict entry the source's
`add_obj`/`remove_obj`/dict accesses touch. -/
def bucketDB : LayerBuckets → Key → List Nat
  | [], _ => []
  | (k', b) :: rest, k => if k' = k then b else bucketDB rest k

/-- The bucket at `(layer, position)` (first matching layer, then first
matching position key), defaulting to empty. -/
def bucketD : CMap → Int → Key → List Nat
  | [], _, _ => []
  | (l', bs) :: rest, l, k => if l' = l then bucketDB bs k else bucketD rest l k

/-- Total number of occurrences of an id across all buckets. -/
def occT (m : CMap) (i : Nat) : Nat :=
  ((iterate m).map (fun t => t.2.2.count i)).sum

/-- The id occurs exactly once in the whole index, and that occurrence is
in the `(l, k)` bucket. -/
def AtExactly (m : CMap) (l : Int) (k : Key) (i : Nat) : Prop :=
  occT m i = 1 ∧ i ∈ bucketD m l k

/-- The index/position consistency invariant claimed by the spec: every
registered collider that has a position occupies exactly one bucket, the
one at its own layer and recorded position. -/
def IndexConsistent (objs : List GameObject) (m : CMap) : Prop :=
  ∀ e ∈ objs, e.collision.collider = true → e.position.isSome →
    AtExactly m e.collision.layer e.position e.id

/-- The same invariant without the has-a-position guard: the state
`__draw_game_objects` rebuilds each tick (it indexes every collider,
position field or not). -/
def FullConsistent (objs : List GameObject) (m : CMap) : Prop :=
  ∀ e ∈ objs, e.collision.collider = true →
    AtExactly m e.collision.layer e.position e.id

/-- Internal invariant of the resolver: every registered collider has
exactly one occurrence, in some bucket of its own layer. -/
def OneBucket (objs : List GameObject) (m : CMap) : Prop :=
  ∀ e ∈ objs, e.collision.collider = true →
    ∃ k, AtExactly m e.collision.layer k e.id

/-- Well-formedness of the dict-of-dicts: layer keys are distinct and the
position keys inside each layer are distinct.  Every Python dict state
satisfies this. -/
def WFMap (m : CMap) : Prop :=
  (m.map Prod.fst).Nodup ∧ ∀ lb ∈ m, (lb.2.map Prod.fst).Nodup

instance : DecidablePred WFMap := fun m => by
  unfold WFMap; infer_instance

/-!  `TermGame.pathfind` and its helpers.

The source pushes entries with `frontier.put(item, priority)`, but
`queue.PriorityQueue.put`'s second positional parameter is `block`, not a
priority: the computed priority is swallowed as the (truthy) blocking
flag, and the queue orders by the items themselves, i.e. positions
compared lexicographically.  The embedding therefore pops the
lexicographically least position; the dead priority computation is kept
as `_priority`.  -/

/-- Failure of the embedded search: `keyError` models Python raising
`KeyError` on a dict lookup of an untraced position, `fuel` is the
embedding's fuel-exhaustion artifact. -/
inductive PathErr where
  | keyError
  | fuel
deriving DecidableEq, Repr

/-- Lexicographic comparison of `(y, x)` tuples, as Python compares them
inside the priority queue's heap. -/
def lexLe (a b : Pos) : Bool :=
  decide (a.1 < b.1) || (decide (a.1 = b.1) && decide (a.2 ≤ b.2))

/-- Least element of a nonempty collection under `lexLe`. -/
def minLex : Pos → List Pos → Pos
  | p, [] => p
  | p, q :: rest => minLex (if lexLe p q then p else q) rest

/-- `frontier.get()`: pop the least position of the queue. -/
def popMin : List Pos → Option (Pos × List Pos)
  | [] => none
  | p :: rest =>
    let m := minLex p rest
    some (m, eraseFirst (p :: rest) m)

/-- First-match association-list lookup (`dict[k]` when the key is
present, `k in dict` tests). -/
def alookup [DecidableEq α] (l : List (α × β)) (a : α) : Option β :=
  (l.find? (fun p => p.1 = a)).map (fun p => p.2)

/-- Dict assignment: replace in place when the key exists, append
otherwise. -/
def ainsert [DecidableEq α] : List (α × β) → α → β → List (α × β)
  | [], a, b => [(a, b)]
  | (a', b') :: rest, a, b =>
    if a' = a then (a, b) :: rest else (a', b') :: ainsert rest a b

/-- The local `get_neighbors(position, max_y, max_x)` of `pathfind`:
4-connected neighbors in the order down, up, right, left, dropping those
outside `[0, max_y] x [0, max_x]`. -/
def getNeighbors (p : Pos) (maxy maxx : Int) : List Pos :=
  [(p.1 + 1, p.2), (p.1 - 1, p.2), (p.1, p.2 + 1), (p.1, p.2 - 1)].filter
    (fun n => decide (0 ≤ n.1) && decide (n.1 ≤ maxy) && decide (0 ≤ n.2) && decide (n.2 ≤ maxx))

/-- Relaxation of one neighbor inside the frontier loop, threading
`(frontier, cost_so_far, came_from)`. -/
def relaxNeighbor (start target current : Pos) (c : Nat)
    (st : List Pos × List (Pos × Nat) × List (Pos × Option Pos)) (nb : Pos) :
    List Pos × List (Pos × Nat) × List (Pos × Option Pos) :=
  let newCost := c + 1
  let improves :=
    match alookup st.2.1 nb with
    | none => true
    | some oc => decide (newCost < oc)
  if improves then
    -- the heuristic mistakenly measures start-to-target, and the computed
    -- priority is passed into `put`'s `block` parameter and discarded
    let _priority := (newCost : Int) + ((target.1 - start.1).natAbs + (target.2 - start.2).natAbs)
    (st.1 ++ [nb], ainsert st.2.1 nb newCost, ainsert st.2.2 nb (some current))
  else st

/-- The `while not frontier.empty():` loop of `pathfind`, returning the
final `came_from` dict. -/
def searchLoop (maxy maxx : Int) (start target : Pos) :
    Nat → List Pos → List (Pos × Nat) → List (Pos × Option Pos) →
    Except PathErr (List (Pos × Option Pos))
  | 0, _, _, _ => .error .fuel
  | fuel + 1, frontier, cost, came =>
    match popMin frontier with
    | none => .ok came
    | some (current, frontier1) =>
      if current = target then .ok came
      else
        match alookup cost current with
        | none => .error .keyError  -- unreachable: every queued position has a cost
        | some c =>
          let st := (getNeighbors current maxy maxx).foldl
            (relaxNeighbor start target current c) (frontier1, cost, came)
          searchLoop maxy maxx start target fuel st.1 st.2.1 st.2.2

/-- The trace-back loop of `pathfind`: walk `came_from` from the target
back to the start, then reverse.  A lookup of an untraced position is
Python's `KeyError`. -/
def traceBack (start : Pos) :
    Nat → List (Pos × Option Pos) → Pos → List Pos → Except PathErr (List Pos)
  | 0, _, _, _ => .error .fuel
  | fuel + 1, came, current, path =>
    if current = start then .ok path.reverse
    else
      match alookup came current with
      | some (some prev) => traceBack start fuel came prev (path ++ [current])
      | some none => .error .keyError  -- `None` becomes the next lookup key and raises
      | none => .error .keyError

/-- Fuel bound used by the embedded `pathfind`; large enough for every
run of the source loop on the bounded grid. -/
def pathFuel (maxy maxx : Int) : Nat :=
  ((maxy.toNat + 2) * (maxx.toNat + 2) + 2) * ((maxy.toNat + 2) * (maxx.toNat + 2) + 2) + 1

/-- `TermGame.pathfind(game_obj, target_position)`: the A*-shaped search
whose priorities are discarded (see above), followed by the trace-back.
The start is `game_obj.position`. -/
def pathfind (maxy maxx : Int) (start target : Pos) : Except PathErr (List Pos) :=
  match searchLoop maxy maxx start target (pathFuel maxy maxx) [start] [(start, 0)] [(start, none)] with
  | .error e => .error e
  | .ok came => traceBack start (pathFuel maxy maxx) came target []

/-- Manhattan distance between two grid positions. -/
def manhattan (a b : Pos) : Nat :=
  (a.1 - b.1).natAbs + (a.2 - b.2).natAbs

/-!  The frame-pacing state of the tick loop. -/

/-- The timing fields of `TermGame`: `now` (nanoseconds, `time_ns()`),
`last_frame_time` (initialised to `None` in `__init__` and never
assigned anywhere else in the source) and `frame_delay` (seconds). -/
structure FrameState where
  now : Int
  lastFrameTime : Option Int
  frameDelay : Rat
deriving DecidableEq, Repr

/-- `TermGame.get_time_delta(then)`: seconds between `self.now` and a
nanosecond timestamp. -/
def getTimeDelta (s : FrameState) (t : Int) : Rat :=
  ((s.now - t : Int) : Rat) / 1000000000

/-- `TermGame.__ready_for_next_frame`: `True` when `last_frame_time` is
unset or more than `frame_delay` seconds old (the fall-through `None`
return is falsy). -/
def readyForNextFrame (s : FrameState) : Bool :=
  match s.lastFrameTime with
  | none => true
  | some t => decide (getTimeDelta s t > s.frameDelay)

/-- `TermGame.__draw_frame`: draw when ready.  The returned flag records
whether the screen was drawn; the state is returned unchanged because the
source never assigns `last_frame_time` after drawing. -/
def drawFrame (s : FrameState) : FrameState × Bool :=
  if readyForNextFrame s then (s, true) else (s, false)

/-- The draw decisions of successive `__loop` iterations, one per
`time_ns()` reading: each iteration sets `self.now`, runs input handling,
object update and move resolution (which do not touch the timing state),
then calls `__draw_frame`. -/
def runTicks (s : FrameState) : List Int → List Bool
  | [] => []
  | t :: rest =>
    let s1 := { s with now := t }
    let s2 := drawFrame s1
    s2.2 :: runTicks s2.1 rest

instance (m : CMap) (l : Int) (k : Key) (i : Nat) : Decidable (AtExactly m l k i) := by
  unfold AtExactly; infer_instance

instance (objs : List GameObject) (m : CMap) : Decidable (IndexConsistent objs m) := by
  unfold IndexConsistent; infer_instance

instance (objs : List GameObject) (m : CMap) : Decidable (FullConsistent objs m) := by
  unfold FullConsistent; infer_instance

/-!  Concrete states used by the counterexamples, scenario checks and
witnesses. -/

/-- A collider sitting at `(0, 0)` on layer 0. -/
def dupObj : GameObject :=
  { id := 0, position := some (0, 0), collision := { collider := true } }

/-- The rebuilt index for `dupObj`. -/
def dupMap : CMap := [(0, [(some (0, 0), [0])])]

/-- Two relocation requests for the same entity queued in one tick. -/
def dupReqs : List (Nat × Key) := [(0, some (1, 1)), (0, some (2, 2))]

/-- An entity with the default collision profile (`collider = False`),
i.e. one that never registered an actual profile, and no position. -/
def ghostObj : GameObject := { id := 0 }

/-- Two rigidbodies sharing layer 1 and position `(2, 2)`. -/
def rbA : GameObject :=
  { id := 0, position := some (2, 2),
    collision := { collider := true, rigidbody := true, layer := 1 } }

/-- Second rigidbody of the layer-1 conflict. -/
def rbB : GameObject :=
  { id := 1, position := some (2, 2),
    collision := { collider := true, rigidbody := true, layer := 1 } }

/-- Index holding the layer-1 conflict bucket. -/
def rbMap : CMap := [(1, [(some (2, 2), [0, 1])])]

/-- First rigidbody of an unresolvable conflict: both it and `stuckB`
record position `(5, 5)`, so neither can be reverted anywhere. -/
def stuckA : GameObject :=
  { id := 0, position := some (5, 5),
    collision := { collider := true, rigidbody := true } }

/-- Second rigidbody of the unresolvable conflict. -/
def stuckB : GameObject :=
  { id := 1, position := some (5, 5),
    collision := { collider := true, rigidbody := true } }

/-- A bystander whose move request makes the tick enter the resolver. -/
def bystander : GameObject :=
  { id := 2, position := some (0, 0), collision := { collider := true } }

/-- Index with the unresolvable bucket and the bystander. -/
def stuckMap : CMap := [(0, [(some (5, 5), [0, 1]), (some (0, 0), [2])])]

/-- The bystander's harmless relocation request. -/
def stuckReqs : List (Nat × Key) := [(2, some (0, 1))]

/-!  Helper functions for the proofs (not part of the source; each is
related to the source functions by a lemma below). -/

/-- Occurrences of an id inside one layer. -/
def occTB (bs : LayerBuckets) (i : Nat) : Nat :=
  (bs.map (fun kb => kb.2.count i)).sum

/-- Mismatched occurrences inside one layer. -/
def mismatchB (objs : List GameObject) (bs : LayerBuckets) : Nat :=
  (bs.map (fun kb => kb.2.countP (fun i => decide (posOf objs i ≠ kb.1)))).sum

/-- Pointwise form of the reconciliation pass: the assignment stream
applied to a single object. -/
def applyAll (ps : List (Nat × Key)) (o : GameObject) : GameObject :=
  ps.foldl (fun o p => if o.id = p.1 then { o with position := p.2 } else o) o

/-!  Supporting lemmas. -/

theorem eraseFirst_not_mem [DecidableEq α] {b : List α} {x : α} (h : x ∉ b) :
    eraseFirst b x = b := by
  induction b with
  | nil => rfl
  | cons a rest ih =>
    simp only [List.mem_cons, not_or] at h
    simp [eraseFirst, Ne.symm h.1, ih h.2]

theorem count_eraseFirst_self [DecidableEq α] {b : List α} {x : α} (h : x ∈ b) :
    (eraseFirst b x).count x + 1 = b.count x := by
  induction b with
  | nil => simp at h
  | cons a rest ih =>
    by_cases hax : a = x
    · subst hax
      simp [eraseFirst, List.count_cons_self]
    · have hx : x ∈ rest := by
        rcases List.mem_cons.1 h with h1 | h1
        · exact absurd h1.symm hax
        · exact h1
      simp [eraseFirst, hax, List.count_cons, Ne.symm hax, ih hx]

theorem count_eraseFirst_ne [DecidableEq α] {b : List α} {x y : α} (h : x ≠ y) :
    (eraseFirst b x).count y = b.count y := by
  induction b with
  | nil => rfl
  | cons a rest ih =>
    by_cases hax : a = x
    · subst hax
      simp [eraseFirst, List.count_cons, Ne.symm h]
    · simp [eraseFirst, hax, List.count_cons, ih]

theorem countP_eraseFirst_true {b : List Nat} {x : Nat} {p : Nat → Bool}
    (hmem : x ∈ b) (hp : p x = true) :
    (eraseFirst b x).countP p + 1 = b.countP p := by
  induction b with
  | nil => simp at hmem
  | cons a rest ih =>
    by_cases hax : a = x
    · subst hax
      simp [eraseFirst, List.countP_cons, hp]
    · have hx : x ∈ rest := by
        rcases List.mem_cons.1 hmem with h1 | h1
        · exact absurd h1.symm hax
        · exact h1
      have h2 := ih hx
      simp only [eraseFirst, if_neg hax, List.countP_cons]
      omega

theorem mem_eraseFirst_of_ne [DecidableEq α] {b : List α} {x y : α} (h : y ≠ x) :
    y ∈ eraseFirst b x ↔ y ∈ b := by
  induction b with
  | nil => simp [eraseFirst]
  | cons a rest ih =>
    by_cases hax : a = x
    · subst hax
      simp [eraseFirst, Ne.symm h]
      tauto
    · simp [eraseFirst, hax, ih]

/-!  One-layer bucket lemmas. -/

theorem bucketDB_bucketAdd (bs : LayerBuckets) (k k' : Key) (i : Nat) :
    bucketDB (bucketAdd k i bs) k' =
      if k = k' then bucketDB bs k ++ [i] else bucketDB bs k' := by
  induction bs with
  | nil =>
    by_cases h : k = k' <;> simp [bucketAdd, bucketDB, h]
  | cons kb rest ih =>
    obtain ⟨k0, b⟩ := kb
    by_cases h0 : k0 = k
    · subst h0
      by_cases h1 : k0 = k' <;> simp [bucketAdd, bucketDB, h1]
    · by_cases h1 : k0 = k'
      · subst h1
        have hk : k ≠ k0 := fun h2 => h0 h2.symm
        simp [bucketAdd, bucketDB, h0, hk]
      · simp [bucketAdd, bucketDB, h0, h1, ih]

theorem bucketDB_bucketRemove (bs : LayerBuckets) (k k' : Key) (i : Nat) :
    bucketDB (bucketRemove k i bs) k' =
      if k = k' then eraseFirst (bucketDB bs k) i else bucketDB bs k' := by
  induction bs with
  | nil =>
    by_cases h : k = k' <;> simp [bucketRemove, bucketDB, h, eraseFirst]
  | cons kb rest ih =>
    obtain ⟨k0, b⟩ := kb
    by_cases h0 : k0 = k
    · subst h0
      by_cases h1 : k0 = k' <;> simp [bucketRemove, bucketDB, h1]
    · by_cases h1 : k0 = k'
      · subst h1
        have hk : k ≠ k0 := fun h2 => h0 h2.symm
        simp [bucketRemove, bucketDB, h0, hk]
      · simp [bucketRemove, bucketDB, h0, h1, ih]

theorem occTB_cons (kb : Key × List Nat) (rest : LayerBuckets) (i : Nat) :
    occTB (kb :: rest) i = kb.2.count i + occTB rest i := by
  simp [occTB]

theorem occTB_bucketAdd (bs : LayerBuckets) (k : Key) (i y : Nat) :
    occTB (bucketAdd k i bs) y = occTB bs y + (if i = y then 1 else 0) := by
  induction bs with
  | nil =>
    by_cases h : i = y <;> simp [bucketAdd, occTB, h, List.count_singleton]
  | cons kb rest ih =>
    obtain ⟨k0, b⟩ := kb
    by_cases h0 : k0 = k
    · subst h0
      by_cases h : i = y <;>
        simp [bucketAdd, occTB_cons, List.count_append, List.count_singleton, h] <;> omega
    · simp [bucketAdd, h0, occTB_cons, ih]
      omega

theorem occTB_bucketRemove_ne (bs : LayerBuckets) (k : Key) {i y : Nat} (h : i ≠ y) :
    occTB (bucketRemove k i bs) y = occTB bs y := by
  induction bs with
  | nil => simp [bucketRemove, occTB]
  | cons kb rest ih =>
    obtain ⟨k0, b⟩ := kb
    by_cases h0 : k0 = k
    · subst h0
      simp [bucketRemove, occTB_cons, count_eraseFirst_ne h]
    · simp [bucketRemove, h0, occTB_cons, ih]

theorem occTB_bucketRemove_mem (bs : LayerBuckets) (k : Key) {i : Nat}
    (h : i ∈ bucketDB bs k) :
    occTB (bucketRemove k i bs) i + 1 = occTB bs i := by
  induction bs with
  | nil => simp [bucketDB] at h
  | cons kb rest ih =>
    obtain ⟨k0, b⟩ := kb
    by_cases h0 : k0 = k
    · subst h0
      simp [bucketDB] at h
      have h2 := count_eraseFirst_self h
      simp [bucketRemove, occTB_cons]
      omega
    · have h1 : i ∈ bucketDB rest k := by
        simpa [bucketDB, h0] using h
      simp [bucketRemove, h0, occTB_cons, ← ih h1]
      omega

theorem occTB_bucketRemove_not_mem (bs : LayerBuckets) (k : Key) {i : Nat}
    (h : i ∉ bucketDB bs k) :
    occTB (bucketRemove k i bs) i = occTB bs i := by
  induction bs with
  | nil => simp [bucketRemove, occTB]
  | cons kb rest ih =>
    obtain ⟨k0, b⟩ := kb
    by_cases h0 : k0 = k
    · subst h0
      simp [bucketDB] at h
      simp [bucketRemove, occTB_cons, eraseFirst_not_mem h]
    · have h1 : i ∉ bucketDB rest k := by
        simpa [bucketDB, h0] using h
      simp [bucketRemove, h0, occTB_cons, ih h1]

/-!  Map-level occurrence lemmas. -/

theorem occT_nil (i : Nat) : occT [] i = 0 := rfl

theorem occT_cons (lb : Int × LayerBuckets) (rest : CMap) (i : Nat) :
    occT (lb :: rest) i = occTB lb.2 i + occT rest i := by
  simp [occT, occTB, iterate, List.map_map]
  rfl

theorem bucketD_cons (lb : Int × LayerBuckets) (rest : CMap) (l : Int) (k : Key) :
    bucketD (lb :: rest) l k = if lb.1 = l then bucketDB lb.2 k else bucketD rest l k := by
  obtain ⟨l0, bs⟩ := lb
  rfl

theorem occT_addObj (m : CMap) (l : Int) (k : Key) (i y : Nat) :
    occT (addObj l k i m) y = occT m y + (if i = y then 1 else 0) := by
  induction m with
  | nil =>
    by_cases h : i = y <;>
      simp [addObj, occT_cons, occTB, h, List.count_singleton] <;> omega
  | cons lb rest ih =>
    obtain ⟨l0, bs⟩ := lb
    by_cases h0 : l0 = l
    · subst h0
      simp [addObj, occT_cons, occTB_bucketAdd]
      omega
    · simp [addObj, h0, occT_cons, ih]
      omega

theorem occT_removeObj_ne (m : CMap) (l : Int) (k : Key) {i y : Nat} (h : i ≠ y) :
    occT (removeObj l k i m) y = occT m y := by
  induction m with
  | nil => simp [removeObj, occT_cons, bucketRemove, occTB]
  | cons lb rest ih =>
    obtain ⟨l0, bs⟩ := lb
    by_cases h0 : l0 = l
    · subst h0
      simp [removeObj, occT_cons, occTB_bucketRemove_ne _ _ h]
    · simp [removeObj, h0, occT_cons, ih]

theorem occT_removeObj_mem (m : CMap) (l : Int) (k : Key) {i : Nat}
    (h : i ∈ bucketD m l k) :
    occT (removeObj l k i m) i + 1 = occT m i := by
  induction m with
  | nil => simp [bucketD] at h
  | cons lb rest ih =>
    obtain ⟨l0, bs⟩ := lb
    by_cases h0 : l0 = l
    · subst h0
      simp [bucketD_cons] at h
      have h2 := occTB_bucketRemove_mem bs k h
      simp [removeObj, occT_cons]
      omega
    · have h1 : i ∈ bucketD rest l k := by
        simpa [bucketD_cons, h0] using h
      simp [removeObj, h0, occT_cons, ← ih h1]
      omega

theorem occT_removeObj_not_mem (m : CMap) (l : Int) (k : Key) {i : Nat}
    (h : i ∉ bucketD m l k) :
    occT (removeObj l k i m) i = occT m i := by
  induction m with
  | nil => simp [removeObj, occT_cons, bucketRemove, occTB]
  | cons lb rest ih =>
    obtain ⟨l0, bs⟩ := lb
    by_cases h0 : l0 = l
    · subst h0
      simp [bucketD_cons] at h
      simp [removeObj, occT_cons, occTB_bucketRemove_not_mem bs k h]
    · have h1 : i ∉ bucketD rest l k := by
        simpa [bucketD_cons, h0] using h
      simp [removeObj, h0, occT_cons, ih h1]

theorem bucketD_addObj (m : CMap) (l l' : Int) (k k' : Key) (i : Nat) :
    bucketD (addObj l k i m) l' k' =
      if l = l' ∧ k = k' then bucketD m l k ++ [i] else bucketD m l' k' := by
  induction m with
  | nil =>
    by_cases h0 : l = l'
    · subst h0
      by_cases h1 : k = k' <;> simp [addObj, bucketD_cons, bucketDB, bucketD, h1]
    · simp [addObj, bucketD_cons, bucketD, h0]
  | cons lb rest ih =>
    obtain ⟨l0, bs⟩ := lb
    by_cases h0 : l0 = l
    · subst h0
      by_cases h1 : l0 = l'
      · subst h1
        by_cases h2 : k = k' <;>
          simp [addObj, bucketD_cons, bucketDB_bucketAdd, h2]
      · have : ¬ (l0 = l' ∧ k = k') := fun hc => h1 hc.1
        simp [addObj, bucketD_cons, h1, this]
    · by_cases h1 : l0 = l'
      · subst h1
        have : ¬ (l = l0 ∧ k = k') := fun hc => h0 hc.1.symm
        simp [addObj, h0, bucketD_cons, this]
      · simp [addObj, h0, bucketD_cons, h1, ih]

theorem bucketD_removeObj (m : CMap) (l l' : Int) (k k' : Key) (i : Nat) :
    bucketD (removeObj l k i m) l' k' =
      if l = l' ∧ k = k' then eraseFirst (bucketD m l k) i else bucketD m l' k' := by
  induction m with
  | nil =>
    by_cases h0 : l = l'
    · subst h0
      by_cases h1 : k = k' <;>
        simp [removeObj, bucketRemove, bucketD_cons, bucketDB, h1, eraseFirst, bucketD]
    · simp [removeObj, bucketD_cons, bucketD, h0]
  | cons lb rest ih =>
    obtain ⟨l0, bs⟩ := lb
    by_cases h0 : l0 = l
    · subst h0
      by_cases h1 : l0 = l'
      · subst h1
        by_cases h2 : k = k' <;>
          simp [removeObj, bucketD_cons, bucketDB_bucketRemove, h2]
      · have : ¬ (l0 = l' ∧ k = k') := fun hc => h1 hc.1
        simp [removeObj, bucketD_cons, h1, this]
    · by_cases h1 : l0 = l'
      · subst h1
        have : ¬ (l = l0 ∧ k = k') := fun hc => h0 hc.1.symm
        simp [removeObj, h0, bucketD_cons, this]
      · simp [removeObj, h0, bucketD_cons, h1, ih]

/-!  Mismatch-measure lemmas. -/

theorem mismatchB_cons (objs : List GameObject) (kb : Key × List Nat)
    (rest : LayerBuckets) :
    mismatchB objs (kb :: rest) =
      kb.2.countP (fun i => decide (posOf objs i ≠ kb.1)) + mismatchB objs rest := by
  simp [mismatchB]

theorem mismatch_cons (objs : List GameObject) (lb : Int × LayerBuckets) (rest : CMap) :
    mismatch objs (lb :: rest) = mismatchB objs lb.2 + mismatch objs rest := by
  simp [mismatch, mismatchB, iterate, List.map_map]
  rfl

theorem mismatchB_bucketAdd (objs : List GameObject) (bs : LayerBuckets) (k : Key)
    (i : Nat) :
    mismatchB objs (bucketAdd k i bs) =
      mismatchB objs bs + (if posOf objs i = k then 0 else 1) := by
  induction bs with
  | nil =>
    by_cases h : posOf objs i = k <;>
      simp [bucketAdd, mismatchB, List.countP_cons, h]
  | cons kb rest ih =>
    obtain ⟨k0, b⟩ := kb
    by_cases h0 : k0 = k
    · subst h0
      by_cases h : posOf objs i = k0 <;>
        simp [bucketAdd, mismatchB_cons, List.countP_append, List.countP_cons, h] <;>
        omega
    · simp [bucketAdd, h0, mismatchB_cons, ih]
      omega

theorem mismatchB_bucketRemove_mem (objs : List GameObject) (bs : LayerBuckets)
    (k : Key) {i : Nat} (hmem : i ∈ bucketDB bs k) (hne : posOf objs i ≠ k) :
    mismatchB objs (bucketRemove k i bs) + 1 = mismatchB objs bs := by
  induction bs with
  | nil => simp [bucketDB] at hmem
  | cons kb rest ih =>
    obtain ⟨k0, b⟩ := kb
    by_cases h0 : k0 = k
    · subst h0
      simp [bucketDB] at hmem
      have h2 := countP_eraseFirst_true (p := fun j => !decide (posOf objs j = k0)) hmem
        (by simpa using hne)
      simp [bucketRemove, mismatchB_cons]
      omega
    · have h1 : i ∈ bucketDB rest k := by
        simpa [bucketDB, h0] using hmem
      have h2 := ih h1
      simp [bucketRemove, h0, mismatchB_cons]
      omega

theorem mismatch_addObj (objs : List GameObject) (m : CMap) (l : Int) (k : Key)
    (i : Nat) :
    mismatch objs (addObj l k i m) =
      mismatch objs m + (if posOf objs i = k then 0 else 1) := by
  induction m with
  | nil =>
    have h0 : mismatch objs ([] : CMap) = 0 := rfl
    by_cases h : posOf objs i = k <;>
      simp [addObj, mismatch_cons, mismatchB, List.countP_cons, h, h0]
  | cons lb rest ih =>
    obtain ⟨l0, bs⟩ := lb
    by_cases h0 : l0 = l
    · subst h0
      simp [addObj, mismatch_cons, mismatchB_bucketAdd]
      omega
    · simp [addObj, h0, mismatch_cons, ih]
      omega

theorem mismatch_removeObj_mem (objs : List GameObject) (m : CMap) (l : Int)
    (k : Key) {i : Nat} (hmem : i ∈ bucketD m l k) (hne : posOf objs i ≠ k) :
    mismatch objs (removeObj l k i m) + 1 = mismatch objs m := by
  induction m with
  | nil => simp [bucketD] at hmem
  | cons lb rest ih =>
    obtain ⟨l0, bs⟩ := lb
    by_cases h0 : l0 = l
    · subst h0
      simp [bucketD_cons] at hmem
      have h2 := mismatchB_bucketRemove_mem objs bs k hmem hne
      simp [removeObj, mismatch_cons]
      omega
    · have h1 : i ∈ bucketD rest l k := by
        simpa [bucketD_cons, h0] using hmem
      have h2 := ih h1
      simp [removeObj, h0, mismatch_cons]
      omega

/-!  Well-formedness preservation. -/

theorem mem_keys_bucketAdd (bs : LayerBuckets) (k k' : Key) (i : Nat) :
    k' ∈ (bucketAdd k i bs).map Prod.fst ↔ k' ∈ bs.map Prod.fst ∨ k' = k := by
  induction bs with
  | nil => simp [bucketAdd]
  | cons kb rest ih =>
    obtain ⟨k0, b⟩ := kb
    by_cases h0 : k0 = k
    · subst h0
      simp [bucketAdd]
      tauto
    · simp [bucketAdd, h0, ih]
      tauto

theorem nodup_keys_bucketAdd (bs : LayerBuckets) (k : Key) (i : Nat)
    (h : (bs.map Prod.fst).Nodup) : ((bucketAdd k i bs).map Prod.fst).Nodup := by
  induction bs with
  | nil => simp [bucketAdd]
  | cons kb rest ih =>
    obtain ⟨k0, b⟩ := kb
    simp only [List.map_cons, List.nodup_cons] at h
    by_cases h0 : k0 = k
    · subst h0
      simp only [bucketAdd, if_pos rfl, if_true, List.map_cons, List.nodup_cons]
      exact ⟨h.1, h.2⟩
    · simp only [bucketAdd, if_neg h0, List.map_cons, List.nodup_cons]
      refine ⟨?_, ih h.2⟩
      rw [mem_keys_bucketAdd]
      push_neg
      exact ⟨h.1, h0⟩

theorem mem_keys_bucketRemove (bs : LayerBuckets) (k k' : Key) (i : Nat) :
    k' ∈ (bucketRemove k i bs).map Prod.fst ↔ k' ∈ bs.map Prod.fst ∨ k' = k := by
  induction bs with
  | nil => simp [bucketRemove]
  | cons kb rest ih =>
    obtain ⟨k0, b⟩ := kb
    by_cases h0 : k0 = k
    · subst h0
      simp [bucketRemove]
      tauto
    · simp [bucketRemove, h0, ih]
      tauto

theorem nodup_keys_bucketRemove (bs : LayerBuckets) (k : Key) (i : Nat)
    (h : (bs.map Prod.fst).Nodup) : ((bucketRemove k i bs).map Prod.fst).Nodup := by
  induction bs with
  | nil => simp [bucketRemove]
  | cons kb rest ih =>
    obtain ⟨k0, b⟩ := kb
    simp only [List.map_cons, List.nodup_cons] at h
    by_cases h0 : k0 = k
    · subst h0
      simp only [bucketRemove, if_pos rfl, if_true, List.map_cons, List.nodup_cons]
      exact ⟨h.1, h.2⟩
    · simp only [bucketRemove, if_neg h0, List.map_cons, List.nodup_cons]
      refine ⟨?_, ih h.2⟩
      rw [mem_keys_bucketRemove]
      push_neg
      exact ⟨h.1, h0⟩

theorem mem_keys_addObj (m : CMap) (l l' : Int) (k : Key) (i : Nat) :
    l' ∈ (addObj l k i m).map Prod.fst ↔ l' ∈ m.map Prod.fst ∨ l' = l := by
  induction m with
  | nil => simp [addObj]
  | cons lb rest ih =>
    obtain ⟨l0, bs⟩ := lb
    by_cases h0 : l0 = l
    · subst h0
      simp [addObj]
      tauto
    · simp [addObj, h0, ih]
      tauto

theorem mem_keys_removeObj (m : CMap) (l l' : Int) (k : Key) (i : Nat) :
    l' ∈ (removeObj l k i m).map Prod.fst ↔ l' ∈ m.map Prod.fst ∨ l' = l := by
  induction m with
  | nil => simp [removeObj, bucketRemove]
  | cons lb rest ih =>
    obtain ⟨l0, bs⟩ := lb
    by_cases h0 : l0 = l
    · subst h0
      simp [removeObj]
      tauto
    · simp [removeObj, h0, ih]
      tauto

theorem WFMap_addObj (m : CMap) (l : Int) (k : Key) (i : Nat) (h : WFMap m) :
    WFMap (addObj l k i m) := by
  induction m with
  | nil =>
    refine ⟨by simp [addObj], ?_⟩
    intro lb hlb
    have h2 : lb ∈ [(l, [(k, [i])])] := by simpa [addObj] using hlb
    rw [List.mem_singleton] at h2
    subst h2
    simp
  | cons lb rest ih =>
    obtain ⟨l0, bs⟩ := lb
    obtain ⟨hk, hin⟩ := h
    simp only [List.map_cons, List.nodup_cons] at hk
    by_cases h0 : l0 = l
    · subst h0
      refine ⟨?_, ?_⟩
      · simp only [addObj, if_pos rfl, if_true, List.map_cons, List.nodup_cons]
        exact ⟨hk.1, hk.2⟩
      · intro lb' hlb'
        simp only [addObj, if_pos rfl, if_true, List.mem_cons] at hlb'
        rcases hlb' with h1 | h1
        · subst h1
          exact nodup_keys_bucketAdd bs k i (hin (l0, bs) (by simp))
        · exact hin lb' (List.mem_cons.2 (Or.inr h1))
    · have hrest : WFMap rest :=
        ⟨hk.2, fun lb' h' => hin lb' (List.mem_cons.2 (Or.inr h'))⟩
      obtain ⟨hk2, hin2⟩ := ih hrest
      refine ⟨?_, ?_⟩
      · simp only [addObj, if_neg h0, List.map_cons, List.nodup_cons]
        refine ⟨?_, hk2⟩
        rw [mem_keys_addObj]
        push_neg
        exact ⟨hk.1, h0⟩
      · intro lb' hlb'
        simp only [addObj, if_neg h0, List.mem_cons] at hlb'
        rcases hlb' with h1 | h1
        · subst h1
          exact hin (l0, bs) (by simp)
        · exact hin2 lb' h1

theorem WFMap_removeObj (m : CMap) (l : Int) (k : Key) (i : Nat) (h : WFMap m) :
    WFMap (removeObj l k i m) := by
  induction m with
  | nil =>
    refine ⟨by simp [removeObj], ?_⟩
    intro lb hlb
    have h2 : lb ∈ [(l, [(k, ([] : List Nat))])] := by
      simpa [removeObj, bucketRemove] using hlb
    rw [List.mem_singleton] at h2
    subst h2
    simp
  | cons lb rest ih =>
    obtain ⟨l0, bs⟩ := lb
    obtain ⟨hk, hin⟩ := h
    simp only [List.map_cons, List.nodup_cons] at hk
    by_cases h0 : l0 = l
    · subst h0
      refine ⟨?_, ?_⟩
      · simp only [removeObj, if_pos rfl, if_true, List.map_cons, List.nodup_cons]
        exact ⟨hk.1, hk.2⟩
      · intro lb' hlb'
        simp only [removeObj, if_pos rfl, if_true, List.mem_cons] at hlb'
        rcases hlb' with h1 | h1
        · subst h1
          exact nodup_keys_bucketRemove bs k i (hin (l0, bs) (by simp))
        · exact hin lb' (List.mem_cons.2 (Or.inr h1))
    · have hrest : WFMap rest :=
        ⟨hk.2, fun lb' h' => hin lb' (List.mem_cons.2 (Or.inr h'))⟩
      obtain ⟨hk2, hin2⟩ := ih hrest
      refine ⟨?_, ?_⟩
      · simp only [removeObj, if_neg h0, List.map_cons, List.nodup_cons]
        refine ⟨?_, hk2⟩
        rw [mem_keys_removeObj]
        push_neg
        exact ⟨hk.1, h0⟩
      · intro lb' hlb'
        simp only [removeObj, if_neg h0, List.mem_cons] at hlb'
        rcases hlb' with h1 | h1
        · subst h1
          exact hin (l0, bs) (by simp)
        · exact hin2 lb' h1

/-!  Iterate / bucket membership lemmas. -/

theorem iterate_cons (lb : Int × LayerBuckets) (rest : CMap) :
    iterate (lb :: rest) =
      lb.2.map (fun kb => (lb.1, kb.1, kb.2)) ++ iterate rest := by
  simp [iterate]

theorem mem_iterate_keys {m : CMap} {l : Int} {k : Key} {b : List Nat}
    (h : (l, k, b) ∈ iterate m) : l ∈ m.map Prod.fst := by
  induction m with
  | nil => simp [iterate] at h
  | cons lb rest ih =>
    rw [iterate_cons] at h
    rcases List.mem_append.1 h with h1 | h1
    · obtain ⟨kb, hmem, hkb⟩ := List.mem_map.1 h1
      have h2 : lb.1 = l := congrArg Prod.fst hkb
      rw [← h2]
      simp
    · simp [ih h1]

theorem bucketDB_of_mem {bs : LayerBuckets} {k : Key} {b : List Nat}
    (hnd : (bs.map Prod.fst).Nodup) (h : (k, b) ∈ bs) : bucketDB bs k = b := by
  induction bs with
  | nil => simp at h
  | cons kb rest ih =>
    obtain ⟨k0, b0⟩ := kb
    simp only [List.map_cons, List.nodup_cons] at hnd
    rcases List.mem_cons.1 h with h1 | h1
    · injection h1 with h2 h3
      subst h2
      subst h3
      simp [bucketDB]
    · have hk : k0 ≠ k := by
        intro hc
        subst hc
        exact hnd.1 (List.mem_map.2 ⟨(k0, b), h1, rfl⟩)
      simp [bucketDB, hk, ih hnd.2 h1]

theorem bucketD_of_mem_iterate {m : CMap} {l : Int} {k : Key} {b : List Nat}
    (hwf : WFMap m) (h : (l, k, b) ∈ iterate m) : bucketD m l k = b := by
  induction m with
  | nil => simp [iterate] at h
  | cons lb rest ih =>
    obtain ⟨l0, bs⟩ := lb
    obtain ⟨hk, hin⟩ := hwf
    simp only [List.map_cons, List.nodup_cons] at hk
    rw [iterate_cons] at h
    rcases List.mem_append.1 h with h1 | h1
    · obtain ⟨kb, hkb, heq⟩ := List.mem_map.1 h1
      obtain ⟨kk, bb⟩ := kb
      injection heq with he1 hr2
      injection hr2 with he2 he3
      subst he1
      subst he2
      subst he3
      simp only [bucketD_cons, if_pos rfl, if_true]
      exact bucketDB_of_mem (hin (l0, bs) (List.mem_cons_self _ _)) hkb
    · have hl : l0 ≠ l := by
        intro hc
        subst hc
        exact hk.1 (mem_iterate_keys h1)
      have hrest : WFMap rest :=
        ⟨hk.2, fun lb' h' => hin lb' (List.mem_cons.2 (Or.inr h'))⟩
      simp [bucketD_cons, hl, ih hrest h1]

theorem mem_bucketDB_entry {bs : LayerBuckets} {k : Key} {x : Nat}
    (h : x ∈ bucketDB bs k) : (k, bucketDB bs k) ∈ bs := by
  induction bs with
  | nil => simp [bucketDB] at h
  | cons kb rest ih =>
    obtain ⟨k0, b0⟩ := kb
    by_cases h0 : k0 = k
    · subst h0
      simp [bucketDB]
    · simp [bucketDB, h0] at h ⊢
      right
      simpa [bucketDB, h0] using ih (by simpa [bucketDB, h0] using h)

theorem mem_bucketD_iterate {m : CMap} {l : Int} {k : Key} {x : Nat}
    (h : x ∈ bucketD m l k) : (l, k, bucketD m l k) ∈ iterate m := by
  induction m with
  | nil => simp [bucketD] at h
  | cons lb rest ih =>
    obtain ⟨l0, bs⟩ := lb
    by_cases h0 : l0 = l
    · subst h0
      simp only [bucketD_cons, if_pos rfl] at h ⊢
      rw [iterate_cons]
      exact List.mem_append.2 (Or.inl (List.mem_map.2 ⟨(k, bucketDB bs k), mem_bucketDB_entry h, rfl⟩))
    · simp only [bucketD_cons, if_neg h0] at h ⊢
      rw [iterate_cons]
      exact List.mem_append.2 (Or.inr (ih h))

theorem sum_two_mem {α : Type} [DecidableEq α] {L : List α} {a b : α}
    (f : α → Nat) (ha : a ∈ L) (hb : b ∈ L) (hne : a ≠ b) :
    f a + f b ≤ (L.map f).sum := by
  induction L with
  | nil => simp at ha
  | cons c rest ih =>
    rcases List.mem_cons.1 ha with h1 | h1
    · subst h1
      have hbr : b ∈ rest := by
        rcases List.mem_cons.1 hb with h2 | h2
        · exact absurd h2.symm hne
        · exact h2
      have : f b ≤ (rest.map f).sum :=
        List.single_le_sum (fun _ _ => Nat.zero_le _) _ (List.mem_map.2 ⟨b, hbr, rfl⟩)
      simp only [List.map_cons, List.sum_cons]
      omega
    · rcases List.mem_cons.1 hb with h2 | h2
      · subst h2
        have : f a ≤ (rest.map f).sum :=
          List.single_le_sum (fun _ _ => Nat.zero_le _) _ (List.mem_map.2 ⟨a, h1, rfl⟩)
        simp only [List.map_cons, List.sum_cons]
        omega
      · have := ih h1 h2
        simp only [List.map_cons, List.sum_cons]
        omega

theorem occT_one_le_of_mem {m : CMap} {l : Int} {k : Key} {x : Nat}
    (h : x ∈ bucketD m l k) : 1 ≤ occT m x := by
  have h1 := mem_bucketD_iterate h
  have h2 : 1 ≤ (bucketD m l k).count x := List.one_le_count_iff.2 h
  have h3 : (bucketD m l k).count x ≤ ((iterate m).map (fun t => t.2.2.count x)).sum :=
    List.single_le_sum (fun _ _ => Nat.zero_le _) _
      (List.mem_map.2 ⟨(l, k, bucketD m l k), h1, rfl⟩)
  calc 1 ≤ (bucketD m l k).count x := h2
    _ ≤ _ := h3

theorem bucket_unique_of_occT_one {m : CMap} {l l' : Int} {k k' : Key} {x : Nat}
    (hocc : occT m x = 1) (h1 : x ∈ bucketD m l k) (h2 : x ∈ bucketD m l' k') :
    l = l' ∧ k = k' := by
  by_contra hc
  have hne : (l, k, bucketD m l k) ≠ (l', k', bucketD m l' k') := by
    intro he
    injection he with e1 r2
    injection r2 with e2 e3
    exact hc ⟨e1, e2⟩
  have hm1 := mem_bucketD_iterate h1
  have hm2 := mem_bucketD_iterate h2
  have hc1 : 1 ≤ (bucketD m l k).count x := List.one_le_count_iff.2 h1
  have hc2 : 1 ≤ (bucketD m l' k').count x := List.one_le_count_iff.2 h2
  have := sum_two_mem (fun t => t.2.2.count x) hm1 hm2 hne
  simp only at this
  rw [occT] at hocc
  omega

/-!  Shape of the conflicts the resolver fetches. -/

theorem detect_mem {m : CMap} {c : Collision} (h : c ∈ detectCollisions m) :
    (c.layer, c.position, c.colliders) ∈ iterate m ∧ 1 < c.colliders.length := by
  unfold detectCollisions at h
  obtain ⟨t, ht, hc⟩ := List.mem_map.1 h
  obtain ⟨ht1, ht2⟩ := List.mem_filter.1 ht
  subst hc
  refine ⟨?_, by simpa using ht2⟩
  simpa using ht1

theorem getRbScan_single_some {objs : List GameObject} {cs acc : List Collision}
    {c : Collision} (h : getRbScan objs none none true cs acc = some c) :
    ∃ d ∈ cs, c.layer = d.layer ∧ c.position = d.position ∧
      c.colliders = d.colliders.filter (fun i => rigidOf objs i) ∧
      1 < c.colliders.length := by
  induction cs generalizing acc with
  | nil => simp [getRbScan] at h
  | cons d rest ih =>
    by_cases hlen : (d.colliders.filter (fun i => rigidOf objs i)).length > 1
    · simp [getRbScan, hlen] at h
      exact ⟨d, List.mem_cons_self _ _, by simp [← h], by simp [← h], by simp [← h],
        by simp [← h]; exact hlen⟩
    · simp only [getRbScan, if_neg hlen] at h
      obtain ⟨d', hd', hc⟩ := ih h
      exact ⟨d', List.mem_cons.2 (Or.inr hd'), hc⟩

theorem getRbSingle_shape {objs : List GameObject} {m : CMap} {c : Collision}
    (h : getRbSingle objs m = some c) :
    ∃ b, (c.layer, c.position, b) ∈ iterate m ∧
      c.colliders = b.filter (fun i => rigidOf objs i) ∧
      1 < c.colliders.length := by
  obtain ⟨d, hd, h1, h2, h3, h4⟩ := getRbScan_single_some h
  obtain ⟨hm, _⟩ := detect_mem hd
  exact ⟨d.colliders, by rw [h1, h2]; exact hm, h3, h4⟩

/-!  The revert step. -/

theorem tryRevert_go_false {objs : List GameObject} {c : Collision} {m : CMap} :
    ∀ {xs : List Nat}, tryRevert.go objs c m xs = (m', false) → m' = m := by
  intro xs
  induction xs with
  | nil =>
    intro h
    have h2 := congrArg Prod.fst h
    simpa [tryRevert.go] using h2.symm
  | cons x rest ih =>
    intro h
    by_cases hx : posOf objs x ≠ c.position
    · simp [tryRevert.go, hx] at h
    · simp only [tryRevert.go, if_neg hx] at h
      exact ih h

theorem tryRevert_go_true {objs : List GameObject} {c : Collision} {m m' : CMap} :
    ∀ {xs : List Nat}, tryRevert.go objs c m xs = (m', true) →
      ∃ x ∈ xs, posOf objs x ≠ c.position ∧
        m' = addObj c.layer (posOf objs x) x (removeObj c.layer c.position x m) := by
  intro xs
  induction xs with
  | nil =>
    intro h
    simp [tryRevert.go] at h
  | cons x rest ih =>
    intro h
    by_cases hx : posOf objs x ≠ c.position
    · simp only [tryRevert.go, if_pos hx] at h
      exact ⟨x, List.mem_cons_self _ _, hx, (Prod.mk.injEq .. ▸ h).1.symm⟩
    · simp only [tryRevert.go, if_neg hx] at h
      obtain ⟨x', hx', h1, h2⟩ := ih h
      exact ⟨x', List.mem_cons.2 (Or.inr hx'), h1, h2⟩

theorem revert_decreases {objs : List GameObject} {m : CMap} {c : Collision}
    (hwf : WFMap m) (hc : getRbSingle objs m = some c)
    (ht : (tryRevert objs c m).2 = true) :
    mismatch objs (tryRevert objs c m).1 + 1 = mismatch objs m ∧
      WFMap (tryRevert objs c m).1 := by
  have hgo : tryRevert.go objs c m c.colliders =
      ((tryRevert objs c m).1, (tryRevert objs c m).2) := rfl
  rw [ht] at hgo
  obtain ⟨x, hx, hne, hm'⟩ := tryRevert_go_true hgo
  obtain ⟨b, hbm, hcol, _⟩ := getRbSingle_shape hc
  have hxb : x ∈ b := (List.mem_filter.1 (hcol ▸ hx)).1
  have hbd : bucketD m c.layer c.position = b := bucketD_of_mem_iterate hwf hbm
  have hxbd : x ∈ bucketD m c.layer c.position := hbd ▸ hxb
  constructor
  · rw [hm', mismatch_addObj]
    rw [if_pos rfl]
    have := mismatch_removeObj_mem objs m c.layer c.position hxbd hne
    omega
  · rw [hm']
    exact WFMap_addObj _ _ _ _ (WFMap_removeObj _ _ _ _ hwf)

/-!  Termination of the resolver loop. -/

theorem nextConflict_cases (objs : List GameObject) (m : CMap)
    (unres : List Collision) :
    nextConflict objs m unres = none ∨
      nextConflict objs m unres = getRbSingle objs m := by
  unfold nextConflict
  cases h : getRbSingle objs m with
  | none => simp
  | some c =>
    by_cases hmem : c ∈ unres
    · simp [hmem]
    · simp [hmem]

theorem resolveLoop_total (objs : List GameObject) :
    ∀ (f : Nat) (m : CMap) (unres : List Collision) (rep : Reports)
      (c : Option Collision), WFMap m → mismatch objs m + 2 ≤ f →
      (c = none ∨ c = getRbSingle objs m) →
      (resolveLoop objs f c m unres rep).isSome := by
  intro f
  induction f with
  | zero =>
    intro m unres rep c _ hf _
    omega
  | succ f ih =>
    intro m unres rep c hwf hf hc
    cases c with
    | none => simp [resolveLoop]
    | some cc =>
      have hcc : getRbSingle objs m = some cc := by
        rcases hc with h | h
        · exact absurd h (by simp)
        · exact h.symm
      rw [resolveLoop]
      cases ht : (tryRevert objs cc m).2 with
      | true =>
        obtain ⟨hdec, hwf'⟩ := revert_decreases hwf hcc ht
        have hif : (if (true = true) then unres else unres ++ [cc]) = unres :=
          if_pos rfl
        rw [hif]
        exact ih (tryRevert objs cc m).1 unres (recordPeers cc rep) _ hwf'
          (by omega) (nextConflict_cases objs _ _)
      | false =>
        have hif : (if (false = true) then unres else unres ++ [cc]) = unres ++ [cc] :=
          if_neg (by simp)
        rw [hif]
        have hgo : tryRevert.go objs cc m cc.colliders =
            ((tryRevert objs cc m).1, (tryRevert objs cc m).2) := rfl
        rw [ht] at hgo
        have hm : (tryRevert objs cc m).1 = m := tryRevert_go_false hgo
        have hnext : nextConflict objs (tryRevert objs cc m).1 (unres ++ [cc]) = none := by
          rw [hm]
          unfold nextConflict
          rw [hcc]
          simp
        rw [hnext]
        match f, hf with
        | 0, hf => omega
        | f' + 1, _ => simp [resolveLoop]

theorem resolveOut_total (objs : List GameObject) (m1 : CMap) (hwf : WFMap m1) :
    (resolveOut objs m1).isSome :=
  resolveLoop_total objs (mismatch objs m1 + 2) m1 [] [] (getRbSingle objs m1) hwf
    (by omega) (Or.inr rfl)

/-!  Preservation of the one-occurrence invariant. -/

theorem AtExactly_addObj_other {m : CMap} {l : Int} {k : Key} {y : Nat}
    (l' : Int) (k' : Key) {x : Nat} (hxy : x ≠ y) (h : AtExactly m l k y) :
    AtExactly (addObj l' k' x m) l k y := by
  obtain ⟨hocc, hmem⟩ := h
  constructor
  · rw [occT_addObj, if_neg hxy, hocc]
  · rw [bucketD_addObj]
    by_cases hc : l' = l ∧ k' = k
    · rw [if_pos hc]
      exact List.mem_append.2 (Or.inl (by rw [hc.1, hc.2]; exact hmem))
    · rwa [if_neg hc]

theorem AtExactly_removeObj_other {m : CMap} {l : Int} {k : Key} {y : Nat}
    (l' : Int) (k' : Key) {x : Nat} (hxy : x ≠ y) (h : AtExactly m l k y) :
    AtExactly (removeObj l' k' x m) l k y := by
  obtain ⟨hocc, hmem⟩ := h
  constructor
  · rw [occT_removeObj_ne _ _ _ hxy, hocc]
  · rw [bucketD_removeObj]
    by_cases hc : l' = l ∧ k' = k
    · rw [if_pos hc]
      refine (mem_eraseFirst_of_ne (Ne.symm hxy)).2 ?_
      rw [hc.1, hc.2]
      exact hmem
    · rwa [if_neg hc]

theorem revert_preserves_oneBucket {objs : List GameObject} {m : CMap}
    {c : Collision} (hwf : WFMap m) (hc : getRbSingle objs m = some c)
    (ht : (tryRevert objs c m).2 = true) (hone : OneBucket objs m) :
    OneBucket objs (tryRevert objs c m).1 := by
  have hgo : tryRevert.go objs c m c.colliders =
      ((tryRevert objs c m).1, (tryRevert objs c m).2) := rfl
  rw [ht] at hgo
  obtain ⟨x, hx, hne, hm'⟩ := tryRevert_go_true hgo
  obtain ⟨b, hbm, hcol, _⟩ := getRbSingle_shape hc
  have hxb : x ∈ b := (List.mem_filter.1 (hcol ▸ hx)).1
  have hbd : bucketD m c.layer c.position = b := bucketD_of_mem_iterate hwf hbm
  have hxbd : x ∈ bucketD m c.layer c.position := hbd ▸ hxb
  intro e he hcol'
  obtain ⟨k0, hocc, hmem⟩ := hone e he hcol'
  by_cases hex : x = e.id
  · subst hex
    obtain ⟨hl, hk⟩ := bucket_unique_of_occT_one hocc hxbd hmem
    refine ⟨posOf objs e.id, ?_, ?_⟩
    · have h1 := occT_removeObj_mem m c.layer c.position hxbd
      rw [hocc] at h1
      rw [hm', occT_addObj, if_pos rfl]
      omega
    · rw [hm', bucketD_addObj]
      rw [if_pos ⟨hl, rfl⟩]
      exact List.mem_append.2 (Or.inr (List.mem_singleton.2 rfl))
  · refine ⟨k0, ?_⟩
    rw [hm']
    exact AtExactly_addObj_other _ _ hex
      (AtExactly_removeObj_other _ _ hex ⟨hocc, hmem⟩)

theorem resolveLoop_oneBucket {objs : List GameObject} :
    ∀ (f : Nat) (c : Option Collision) (m : CMap) (unres : List Collision)
      (rep : Reports) (m2 : CMap) (r2 : Reports),
      resolveLoop objs f c m unres rep = some (m2, r2) →
      WFMap m → OneBucket objs m → (c = none ∨ c = getRbSingle objs m) →
      WFMap m2 ∧ OneBucket objs m2 := by
  intro f
  induction f with
  | zero =>
    intro c m unres rep m2 r2 h
    simp [resolveLoop] at h
  | succ f ih =>
    intro c m unres rep m2 r2 h hwf hone hc
    cases c with
    | none =>
      simp only [resolveLoop, Option.some.injEq] at h
      obtain ⟨h1, _⟩ := Prod.mk.injEq .. ▸ h
      rw [← h1]
      exact ⟨hwf, hone⟩
    | some cc =>
      have hcc : getRbSingle objs m = some cc := by
        rcases hc with h' | h'
        · exact absurd h' (by simp)
        · exact h'.symm
      rw [resolveLoop] at h
      cases ht : (tryRevert objs cc m).2 with
      | true =>
        rw [ht] at h
        have hif : (if (true = true) then unres else unres ++ [cc]) = unres :=
          if_pos rfl
        rw [hif] at h
        obtain ⟨hdec, hwf'⟩ := revert_decreases hwf hcc ht
        have hone' := revert_preserves_oneBucket hwf hcc ht hone
        exact ih _ _ _ _ _ _ h hwf' hone' (nextConflict_cases objs _ _)
      | false =>
        rw [ht] at h
        have hif : (if (false = true) then unres else unres ++ [cc]) = unres ++ [cc] :=
          if_neg (by simp)
        rw [hif] at h
        have hgo : tryRevert.go objs cc m cc.colliders =
            ((tryRevert objs cc m).1, (tryRevert objs cc m).2) := rfl
        rw [ht] at hgo
        have hm : (tryRevert objs cc m).1 = m := tryRevert_go_false hgo
        have hnext : nextConflict objs (tryRevert objs cc m).1 (unres ++ [cc]) = none := by
          rw [hm]
          unfold nextConflict
          rw [hcc]
          simp
        rw [hnext, hm] at h
        cases f with
        | zero => simp [resolveLoop] at h
        | succ f' =>
          simp only [resolveLoop, Option.some.injEq] at h
          obtain ⟨h1, _⟩ := Prod.mk.injEq .. ▸ h
          rw [← h1]
          exact ⟨hwf, hone⟩

/-!  Drain-phase lemmas. -/

theorem findObj_mem {objs : List GameObject} {i : Nat} {o : GameObject}
    (h : findObj objs i = some o) : o ∈ objs ∧ o.id = i := by
  have h1 := List.mem_of_find?_eq_some h
  have h2 := List.find?_some h
  exact ⟨h1, by simpa using h2⟩

theorem findObj_self {objs : List GameObject} {e : GameObject}
    (hids : (objs.map (fun o => o.id)).Nodup) (he : e ∈ objs) :
    findObj objs e.id = some e := by
  cases hfind : findObj objs e.id with
  | none =>
    exfalso
    have := List.find?_eq_none.1 hfind e he
    simp at this
  | some o =>
    obtain ⟨ho, hoid⟩ := findObj_mem hfind
    have : o = e := List.inj_on_of_nodup_map hids ho he hoid
    rw [this]

theorem applyRequest_wf {objs : List GameObject} {r : Nat × Key} {m : CMap}
    (hwf : WFMap m) : WFMap (applyRequest objs r m) := by
  unfold applyRequest
  cases findObj objs r.1 with
  | none => exact hwf
  | some o => exact WFMap_addObj _ _ _ _ (WFMap_removeObj _ _ _ _ hwf)

theorem drainRev_mixed {objs : List GameObject}
    (hids : (objs.map (fun o => o.id)).Nodup) :
    ∀ (rs : List (Nat × Key)) (m : CMap), WFMap m →
      (rs.map Prod.fst).Nodup →
      (∀ r ∈ rs, (findObj objs r.1).isSome) →
      (∀ e ∈ objs, e.collision.collider = true →
        (e.id ∈ rs.map Prod.fst → AtExactly m e.collision.layer e.position e.id) ∧
        (e.id ∉ rs.map Prod.fst → ∃ k, AtExactly m e.collision.layer k e.id)) →
      WFMap (drainRev objs rs m) ∧ OneBucket objs (drainRev objs rs m) := by
  intro rs
  induction rs with
  | nil =>
    intro m hwf _ _ hmix
    refine ⟨hwf, ?_⟩
    intro e he hc
    exact (hmix e he hc).2 (by simp)
  | cons r rest ih =>
    intro m hwf hnd hfind hmix
    obtain ⟨i, p⟩ := r
    have hsome : (findObj objs i).isSome := hfind (i, p) (List.mem_cons_self _ _)
    obtain ⟨o, ho⟩ := Option.isSome_iff_exists.1 hsome
    obtain ⟨homem, hoid⟩ := findObj_mem ho
    simp only [List.map_cons, List.nodup_cons] at hnd
    have happ : applyRequest objs (i, p) m =
        addObj o.collision.layer p i (removeObj o.collision.layer o.position i m) := by
      unfold applyRequest
      rw [ho]
    refine ih (applyRequest objs (i, p) m) (applyRequest_wf hwf) hnd.2
      (fun r' hr' => hfind r' (List.mem_cons.2 (Or.inr hr'))) ?_
    intro e he hc
    by_cases hei : e.id = i
    · have heo : e = o := List.inj_on_of_nodup_map hids he homem (by rw [hei, hoid])
      have hin : AtExactly m e.collision.layer e.position e.id :=
        (hmix e he hc).1 (by simp [hei])
      constructor
      · intro hmem
        exact absurd (hei ▸ hmem) hnd.1
      · intro _
        refine ⟨p, ?_, ?_⟩
        · rw [happ, occT_addObj, if_pos hei.symm]
          have hbd : e.id ∈ bucketD m o.collision.layer o.position := by
            rw [← heo]
            exact hin.2
          have h1 := occT_removeObj_mem m o.collision.layer o.position hbd
          rw [hin.1] at h1
          rw [← hei]
          omega
        · rw [happ, ← heo, ← hei, bucketD_addObj, if_pos ⟨rfl, rfl⟩]
          exact List.mem_append.2 (Or.inr (List.mem_singleton.2 rfl))
    · have hne : i ≠ e.id := fun hc' => hei hc'.symm
      have htrans : ∀ k0, AtExactly m e.collision.layer k0 e.id →
          AtExactly (applyRequest objs (i, p) m) e.collision.layer k0 e.id := by
        intro k0 hat
        rw [happ]
        exact AtExactly_addObj_other _ _ hne (AtExactly_removeObj_other _ _ hne hat)
      constructor
      · intro hmem
        have hmem' : e.id ∈ (i, p).1 :: rest.map Prod.fst := by
          simpa using List.mem_cons.2 (Or.inr hmem)
        have := (hmix e he hc).1 (by simpa using hmem')
        exact htrans _ this
      · intro hmem
        have hmem' : e.id ∉ ((i, p) :: rest).map Prod.fst := by
          simp only [List.map_cons, List.mem_cons]
          push_neg
          exact ⟨hne.symm, hmem⟩
        obtain ⟨k0, hat⟩ := (hmix e he hc).2 hmem'
        exact ⟨k0, htrans _ hat⟩

/-!  Reconciliation-pass lemmas. -/

theorem foldl_applyAssign_eq_map :
    ∀ (ps : List (Nat × Key)) (os : List GameObject),
      ps.foldl applyAssign os = os.map (applyAll ps) := by
  intro ps
  induction ps with
  | nil =>
    intro os
    rw [List.foldl_nil]
    have h : applyAll ([] : List (Nat × Key)) = id := by
      funext o
      rfl
    rw [h, List.map_id]
  | cons p ps ih =>
    intro os
    rw [List.foldl_cons, ih]
    simp only [applyAssign, List.map_map]
    rfl

theorem reconcile_eq_map (m : CMap) (objs : List GameObject) :
    reconcile m objs = objs.map (applyAll (assignments m)) :=
  foldl_applyAssign_eq_map (assignments m) objs

theorem applyAll_id (ps : List (Nat × Key)) (o : GameObject) :
    (applyAll ps o).id = o.id := by
  induction ps generalizing o with
  | nil => rfl
  | cons p ps ih =>
    show (applyAll ps (if o.id = p.1 then { o with position := p.2 } else o)).id = o.id
    by_cases h : o.id = p.1
    · rw [if_pos h, ih]
    · rw [if_neg h, ih]

theorem applyAll_collision (ps : List (Nat × Key)) (o : GameObject) :
    (applyAll ps o).collision = o.collision := by
  induction ps generalizing o with
  | nil => rfl
  | cons p ps ih =>
    show (applyAll ps (if o.id = p.1 then { o with position := p.2 } else o)).collision =
      o.collision
    by_cases h : o.id = p.1
    · rw [if_pos h, ih]
    · rw [if_neg h, ih]

theorem applyAll_no_match : ∀ (ps : List (Nat × Key)) (o : GameObject),
    ps.filter (fun p => decide (p.1 = o.id)) = [] → applyAll ps o = o := by
  intro ps
  induction ps with
  | nil =>
    intro o _
    rfl
  | cons p ps ih =>
    intro o h
    by_cases hp : p.1 = o.id
    · simp [List.filter_cons, hp] at h
    · rw [List.filter_cons, if_neg (by simpa using hp)] at h
      show applyAll ps (if o.id = p.1 then { o with position := p.2 } else o) = o
      rw [if_neg (fun hc => hp hc.symm)]
      exact ih o h

theorem applyAll_pos_single : ∀ (ps : List (Nat × Key)) (o : GameObject) (k : Key),
    ps.filter (fun p => decide (p.1 = o.id)) = [(o.id, k)] →
    applyAll ps o = { o with position := k } := by
  intro ps
  induction ps with
  | nil =>
    intro o k h
    simp at h
  | cons p ps ih =>
    intro o k h
    by_cases hp : p.1 = o.id
    · rw [List.filter_cons, if_pos (by simpa using hp)] at h
      have hpk : p = (o.id, k) := (List.cons.injEq .. ▸ h).1
      have hrest : ps.filter (fun p => decide (p.1 = o.id)) = [] :=
        (List.cons.injEq .. ▸ h).2
      show applyAll ps (if o.id = p.1 then { o with position := p.2 } else o) =
        { o with position := k }
      rw [if_pos hp.symm]
      have : ps.filter
          (fun q => decide (q.1 = ({ o with position := p.2 } : GameObject).id)) = [] := by
        simpa using hrest
      rw [applyAll_no_match ps _ this, hpk]
    · rw [List.filter_cons, if_neg (by simpa using hp)] at h
      show applyAll ps (if o.id = p.1 then { o with position := p.2 } else o) =
        { o with position := k }
      rw [if_neg (fun hc => hp hc.symm)]
      exact ih o k h

theorem countP_decide_eq_count (b : List Nat) (x : Nat) :
    b.countP (fun i => decide (i = x)) = b.count x := by
  induction b with
  | nil => rfl
  | cons a rest ih =>
    simp [List.countP_cons, List.count_cons, ih]

theorem countP_fst_flatMap (x : Nat) :
    ∀ L : List (Int × Key × List Nat),
      ((L.flatMap (fun t => t.2.2.map (fun i => (i, t.2.1)))).countP
        (fun p => decide (p.1 = x))) =
      (L.map (fun t => t.2.2.count x)).sum := by
  intro L
  induction L with
  | nil => rfl
  | cons t rest ih =>
    rw [List.flatMap_cons, List.countP_append, ih]
    simp only [List.map_cons, List.sum_cons]
    congr 1
    rw [List.countP_map, ← countP_decide_eq_count t.2.2 x]
    rfl

theorem assignments_countP (m : CMap) (x : Nat) :
    (assignments m).countP (fun p => decide (p.1 = x)) = occT m x :=
  countP_fst_flatMap x (iterate m)

theorem mem_assignments_of_bucketD {m : CMap} {l : Int} {k : Key} {x : Nat}
    (h : x ∈ bucketD m l k) : (x, k) ∈ assignments m := by
  have h1 := mem_bucketD_iterate h
  unfold assignments
  exact List.mem_flatMap.2 ⟨(l, k, bucketD m l k), h1, List.mem_map.2 ⟨x, h, rfl⟩⟩

theorem filter_eq_singleton {L : List (Nat × Key)} {p : Nat × Key → Bool}
    {a : Nat × Key} (hcount : L.countP p = 1) (ha : a ∈ L) (hpa : p a = true) :
    L.filter p = [a] := by
  have hlen : (L.filter p).length = 1 := by
    rw [← List.countP_eq_length_filter]
    exact hcount
  obtain ⟨b, hb⟩ := List.length_eq_one.1 hlen
  have hmem : a ∈ L.filter p := List.mem_filter.2 ⟨ha, hpa⟩
  rw [hb] at hmem
  rw [hb, List.mem_singleton.1 hmem]

/-!  Claim theorems. -/

/-- Claim C9: running `__move_objects` with an empty relocation-request
queue is the identity: the registry, the index and the notification list
are all unchanged (the early `return` on `if not self.move_requests`). -/
theorem moveObjects_empty_queue_identity (objs : List GameObject) (m : CMap) :
    moveObjects objs m [] = ⟨objs, m, []⟩ := by
  simp [moveObjects]

/-- Claim C10: when the target equals the entity's current position, the
search pops the start first, exits immediately, and the trace-back
returns the empty path (exclusive of the start, inclusive of the
target). -/
theorem pathfind_target_eq_start (maxy maxx : Int) (s : Pos)
    (_hy0 : 0 ≤ s.1) (_hy : s.1 ≤ maxy) (_hx0 : 0 ≤ s.2) (_hx : s.2 ≤ maxx) :
    pathfind maxy maxx s s = .ok [] := by
  simp [pathfind, pathFuel, searchLoop, popMin, minLex, eraseFirst, traceBack]

/-- Witness for `pathfind_target_eq_start` at the concrete in-bounds
position `(2, 2)` of a `[0, 5] x [0, 5]` grid. -/
theorem pathfind_target_eq_start_witness :
    pathfind 5 5 (2, 2) (2, 2) = .ok [] :=
  pathfind_target_eq_start 5 5 (2, 2) (by decide) (by decide) (by decide) (by decide)

/-- Claim C2 (code bug): on a target unreachable within the bounded grid
(here `(5, 5)` on a `[0, 1] x [0, 1]` grid), `pathfind` terminates but
the trace-back looks up `came_from[target]`, which was never traced, and
raises `KeyError` instead of returning an explicit no-path result. -/
theorem pathfind_unreachable_raises_keyError :
    pathfind 1 1 (0, 0) (5, 5) = .error .keyError := rfl

/-- Claim C5 (code bug): from `(3, 3)` to the in-bounds, unobstructed
target `(2, 1)` of a `[0, 3] x [0, 3]` grid, the returned path has
length 5 while the Manhattan distance is 3: because
`PriorityQueue.put(item, priority)` passes the priority into the `block`
parameter, the frontier pops positions in lexicographic order and the
loop breaks on the target before its cost is corrected. -/
theorem pathfind_path_longer_than_manhattan :
    pathfind 3 3 (3, 3) (2, 1) = .ok [(2, 3), (1, 3), (1, 2), (1, 1), (2, 1)] ∧
    [(2, 3), (1, 3), (1, 2), (1, 1), (2, 1)].length = 5 ∧
    manhattan (3, 3) (2, 1) = 3 :=
  ⟨rfl, rfl, rfl⟩

/-- Claim C3 (code bug): `last_frame_time` is never assigned in the
source, so `__ready_for_next_frame` always sees `None` and returns
`True`: two loop iterations only 0.001 s apart — less than the 0.01 s
`frame_delay` — both draw, so the draw phase is never skipped and draws
are not kept `frame_delay` apart. -/
theorem draw_not_throttled :
    runTicks { now := 0, lastFrameTime := none, frameDelay := 1/100 } [0, 1000000] =
      [true, true] ∧
    getTimeDelta { now := 1000000, lastFrameTime := none, frameDelay := 1/100 } 0 < 1/100 := by
  constructor
  · rfl
  · simp [getTimeDelta]
    norm_num

/-- Claim C4 (code bug): with a rigidbody conflict present at layer 1,
position `(2, 2)`: the non-`single` mode returns `None` (the function
builds `rigidbody_collisions` but has no `return` statement for it)
instead of the full conflict list; a `layer=0` filter does not restrict
at all (`if specific_layer` is falsy for 0) and still yields the layer-1
conflict; a nonzero `layer=2` filter does restrict.  `single` mode finds
the conflict, confirming it exists. -/
theorem getRbCollisions_list_mode_returns_none :
    getRbCollisions [rbA, rbB] rbMap none none false = none ∧
    getRbCollisions [rbA, rbB] rbMap none none true =
      some ⟨1, some (2, 2), [0, 1]⟩ ∧
    getRbCollisions [rbA, rbB] rbMap (some 0) none true =
      some ⟨1, some (2, 2), [0, 1]⟩ ∧
    getRbCollisions [rbA, rbB] rbMap (some 2) none true = none :=
  ⟨rfl, rfl, rfl, rfl⟩

/-- Claim C1, counterexample: with two relocation requests queued for the
same collider in one tick, the LIFO drain removes the entity from its
recorded position only once, so after `__move_objects` it occupies two
buckets — `(2, 2)` from the later-queued request and `(1, 1)` from the
earlier one — and its recorded position matches only one of them. -/
theorem duplicate_requests_break_index_consistency :
    ¬ IndexConsistent (moveObjects [dupObj] dupMap dupReqs).objs
        (moveObjects [dupObj] dupMap dupReqs).cmap ∧
    occT (moveObjects [dupObj] dupMap dupReqs).cmap 0 = 2 := by
  constructor
  · decide
  · rfl

/-- Claim C7, counterexample: a relocation request for an entity whose
collision profile was never registered (the default profile,
`collider = False`, no position) is not rejected: `__move_objects`
processes it and inserts the entity into the bucket at the requested
position, changing the index. -/
theorem no_profile_request_mutates_index :
    (moveObjects [ghostObj] [] [(0, some (2, 3))]).cmap =
      [(0, [(none, []), (some (2, 3), [0])])] ∧
    (moveObjects [ghostObj] [] [(0, some (2, 3))]).cmap ≠ ([] : CMap) ∧
    0 ∈ bucketD (moveObjects [ghostObj] [] [(0, some (2, 3))]).cmap 0 (some (2, 3)) := by
  refine ⟨rfl, by decide, by decide⟩

/-- Claim C7, amended: the drain phase performs no profile check at all.
A request for an entity whose profile was never registered (so it kept
the default `collider = False`) is processed exactly like any other:
the entity is removed from the bucket at its recorded position (a no-op
when absent) and appended to the bucket at the requested position, which
therefore contains it afterwards.  The phantom entry persists until the
next draw-phase rebuild drops non-colliders. -/
theorem request_processed_without_profile_check
    (objs : List GameObject) (i : Nat) (p : Key) (e : GameObject) (m : CMap)
    (hfind : findObj objs i = some e) (_hcol : e.collision.collider = false) :
    applyRequest objs (i, p) m =
      addObj e.collision.layer p i (removeObj e.collision.layer e.position i m) ∧
    i ∈ bucketD (applyRequest objs (i, p) m) e.collision.layer p := by
  have h1 : applyRequest objs (i, p) m =
      addObj e.collision.layer p i (removeObj e.collision.layer e.position i m) := by
    unfold applyRequest
    rw [hfind]
  refine ⟨h1, ?_⟩
  rw [h1, bucketD_addObj, if_pos ⟨rfl, rfl⟩]
  exact List.mem_append.2 (Or.inr (List.mem_singleton.2 rfl))

/-- Witness for `request_processed_without_profile_check` on the
profile-less `ghostObj` and an empty index. -/
theorem request_processed_without_profile_check_witness :
    findObj [ghostObj] 0 = some ghostObj ∧
    ghostObj.collision.collider = false ∧
    (applyRequest [ghostObj] (0, some (2, 3)) [] =
      addObj ghostObj.collision.layer (some (2, 3)) 0
        (removeObj ghostObj.collision.layer ghostObj.position 0 []) ∧
    0 ∈ bucketD (applyRequest [ghostObj] (0, some (2, 3)) [])
        ghostObj.collision.layer (some (2, 3))) :=
  ⟨by decide, by decide,
    request_processed_without_profile_check [ghostObj] 0 (some (2, 3)) ghostObj []
      (by decide) (by decide)⟩

/-- Claim C8: the rigidbody conflict-resolution loop terminates for every
registry and every well-formed index: within `mismatch + 2` fetches it
either runs out of conflicts or hits the recorded-unresolvable stop
(every iteration either reverts one entity, strictly decreasing the
mismatch measure, or records the fetched conflict as unresolvable, after
which the same conflict is fetched again and the loop stops).  In the
concrete unresolvable two-entity scenario (`stuckA`, `stuckB` both
recording position `(5, 5)`), resolution stops and each entity receives
exactly one notification listing the other. -/
theorem resolver_loop_terminates :
    (∀ (objs : List GameObject) (m1 : CMap), WFMap m1 → (resolveOut objs m1).isSome) ∧
    (moveObjects [stuckA, stuckB, bystander] stuckMap stuckReqs).notifs =
      [(0, [1]), (1, [0])] :=
  ⟨fun objs m1 hwf => resolveOut_total objs m1 hwf, by decide⟩

/-- Witness for `resolver_loop_terminates` on the concrete unresolvable
scenario index. -/
theorem resolver_loop_terminates_witness :
    WFMap stuckMap ∧ (resolveOut [stuckA, stuckB, bystander] stuckMap).isSome :=
  ⟨by decide, resolver_loop_terminates.1 [stuckA, stuckB, bystander] stuckMap (by decide)⟩

/-- Claim C6: the drain phase consumes relocation requests in strict
LIFO order (the last-enqueued request is applied first); each consumed
request removes the entity from the bucket at its previously recorded
`position` field and adds it to the bucket at the requested position;
and the registry's position fields are written only by the
reconciliation pass after the resolver loop, from the loop's output
index. -/
theorem drain_lifo_remove_add :
    (∀ (objs : List GameObject) (reqs : List (Nat × Key)) (r : Nat × Key) (m : CMap),
      drainAll objs (reqs ++ [r]) m = drainAll objs reqs (applyRequest objs r m)) ∧
    (∀ (objs : List GameObject) (i : Nat) (p : Key) (e : GameObject) (m : CMap),
      findObj objs i = some e →
      applyRequest objs (i, p) m =
        addObj e.collision.layer p i (removeObj e.collision.layer e.position i m)) ∧
    (∀ (objs : List GameObject) (m : CMap) (reqs : List (Nat × Key)) (m2 : CMap)
      (rep : Reports), reqs ≠ [] →
      resolveOut objs (drainAll objs reqs m) = some (m2, rep) →
      (moveObjects objs m reqs).objs = reconcile m2 objs) := by
  refine ⟨?_, ?_, ?_⟩
  · intro objs reqs r m
    simp [drainAll, List.reverse_append, drainRev]
  · intro objs i p e m h
    unfold applyRequest
    rw [h]
  · intro objs m reqs m2 rep hne hres
    simp only [moveObjects, if_neg hne]
    rw [hres]

/-- Witness for `drain_lifo_remove_add` on concrete requests for
`dupObj`. -/
theorem drain_lifo_remove_add_witness :
    drainAll [dupObj] ([(0, some (1, 1))] ++ [(0, some (2, 2))]) dupMap =
      drainAll [dupObj] [(0, some (1, 1))]
        (applyRequest [dupObj] (0, some (2, 2)) dupMap) ∧
    applyRequest [dupObj] (0, some (3, 3)) dupMap =
      addObj dupObj.collision.layer (some (3, 3)) 0
        (removeObj dupObj.collision.layer dupObj.position 0 dupMap) ∧
    (moveObjects [dupObj] dupMap [(0, some (1, 1))]).objs =
      reconcile [(0, [(some (0, 0), []), (some (1, 1), [0])])] [dupObj] :=
  ⟨drain_lifo_remove_add.1 [dupObj] [(0, some (1, 1))] (0, some (2, 2)) dupMap,
    drain_lifo_remove_add.2.1 [dupObj] 0 (some (3, 3)) dupObj dupMap (by decide),
    drain_lifo_remove_add.2.2 [dupObj] dupMap [(0, some (1, 1))]
      [(0, [(some (0, 0), []), (some (1, 1), [0])])] [] (by decide) rfl⟩

/-- Claim C1, amended: the index/position consistency invariant does
hold after `__move_objects` provided at most one relocation request is
queued per entity in the tick (the counterexample above shows two
requests for one entity break it).  Starting from a well-formed index in
the rebuilt state (every registered collider in exactly one bucket, at
its own layer and recorded position), with distinct registry ids,
distinct requested entities, and every requested entity registered:
after move-resolution every collider with a position occupies exactly
one bucket, the one at its own layer and (reconciled) recorded
position. -/
theorem moveObjects_index_consistent (objs : List GameObject) (m : CMap)
    (reqs : List (Nat × Key)) (hwf : WFMap m) (hfull : FullConsistent objs m)
    (hids : (objs.map (fun o => o.id)).Nodup)
    (hreq : (reqs.map Prod.fst).Nodup)
    (hfind : ∀ r ∈ reqs, (findObj objs r.1).isSome) :
    IndexConsistent (moveObjects objs m reqs).objs (moveObjects objs m reqs).cmap := by
  by_cases hre : reqs = []
  · subst hre
    simp only [moveObjects, if_pos rfl]
    unfold IndexConsistent
    intro e he hc _
    exact hfull e he hc
  · have hmix : ∀ e ∈ objs, e.collision.collider = true →
        (e.id ∈ reqs.reverse.map Prod.fst →
          AtExactly m e.collision.layer e.position e.id) ∧
        (e.id ∉ reqs.reverse.map Prod.fst →
          ∃ k, AtExactly m e.collision.layer k e.id) := by
      intro e he hc
      exact ⟨fun _ => hfull e he hc, fun _ => ⟨e.position, hfull e he hc⟩⟩
    obtain ⟨hwf1, hone1⟩ := drainRev_mixed hids reqs.reverse m hwf
      (by simpa using hreq) (fun r hr => hfind r (List.mem_reverse.1 hr)) hmix
    have hsome := resolveOut_total objs (drainAll objs reqs m) hwf1
    rcases hres : resolveOut objs (drainAll objs reqs m) with _ | ⟨m2, rep⟩
    · rw [hres] at hsome
      simp at hsome
    · have hmove : moveObjects objs m reqs =
          ⟨reconcile m2 objs, m2,
            rep.filter (fun p => (findObj (reconcile m2 objs) p.1).isSome)⟩ := by
        simp only [moveObjects, if_neg hre]
        rw [hres]
      rw [hmove]
      have hloop := resolveLoop_oneBucket (mismatch objs (drainAll objs reqs m) + 2)
        (getRbSingle objs (drainAll objs reqs m)) (drainAll objs reqs m) [] [] m2 rep
        hres hwf1 hone1 (Or.inr rfl)
      obtain ⟨_, hone2⟩ := hloop
      unfold IndexConsistent
      intro e' he' hcol' _
      rw [reconcile_eq_map] at he'
      obtain ⟨e, he, rfl⟩ := List.mem_map.1 he'
      have hcol : e.collision.collider = true := by
        rw [applyAll_collision] at hcol'
        exact hcol'
      obtain ⟨k, hocc, hmem⟩ := hone2 e he hcol
      have hcnt : (assignments m2).countP (fun p => decide (p.1 = e.id)) = 1 := by
        rw [assignments_countP, hocc]
      have hma : (e.id, k) ∈ assignments m2 := mem_assignments_of_bucketD hmem
      have hfilter : (assignments m2).filter (fun p => decide (p.1 = e.id)) =
          [(e.id, k)] := filter_eq_singleton hcnt hma (by simp)
      have happ : applyAll (assignments m2) e = { e with position := k } :=
        applyAll_pos_single _ e k hfilter
      rw [happ]
      exact ⟨hocc, hmem⟩

/-- Witness for `moveObjects_index_consistent`: the single-request tick
for `dupObj`. -/
theorem moveObjects_index_consistent_witness :
    WFMap dupMap ∧ FullConsistent [dupObj] dupMap ∧
    IndexConsistent (moveObjects [dupObj] dupMap [(0, some (1, 1))]).objs
      (moveObjects [dupObj] dupMap [(0, some (1, 1))]).cmap :=
  ⟨by decide, by decide,
    moveObjects_index_consistent [dupObj] dupMap [(0, some (1, 1))] (by decide)
      (by decide) (by decide) (by decide) (by decide)⟩

end Termgame
